import Mathlib

/-!
Verification of the diagnostic-detection and minimal-fix engine of the
Adaptive-Error-Recovery-Compiler repository.  The mock backend
(src/unnamed/part_002) implements the POST /compile error heuristics
(`analyze` below), the fix synthesizer (`generateFixes`), and the POST /fix
handler, which textually duplicates the detection logic (`analyzeFix`).
The frontend (src/src/App.tsx) implements the edit applier (`applyFix`).

Source text is modelled as `List Char`.  The JavaScript regular expressions
of the source are modelled by equivalent decidable scanners; each scanner
documents the regex it embeds and the reasoning that makes the embedding
exact for the construct at hand.  JavaScript \s and the regex dot are
modelled on their ASCII fragments, which cover every string this
development evaluates.
-/

namespace AERC

/-- Characters of the JavaScript regex class \s (ASCII fragment). -/
def wsChar (c : Char) : Bool :=
  c = ' ' || c = '\t' || c = '\n' || c = '\r' || c = '\x0b' || c = '\x0c'

/-- Cons a character onto the first line of a line list. -/
def consHead (c : Char) : List (List Char) → List (List Char)
  | [] => [[c]]
  | l :: ls => (c :: l) :: ls

/-- JavaScript code.split(/\r?\n/): split at every "\r\n" or "\n"; a lone
"\r" stays inside its line.  The result always has at least one element
(splitting the empty string yields one empty line). -/
def splitLines : List Char → List (List Char)
  | [] => [[]]
  | '\r' :: '\n' :: rest => [] :: splitLines rest
  | '\n' :: rest => [] :: splitLines rest
  | c :: rest => consHead c (splitLines rest)

/-- Array.prototype.join with separator "\n". -/
def joinLines : List (List Char) → List Char
  | [] => []
  | [l] => l
  | l :: ls => l ++ '\n' :: joinLines ls

/-- Does hay start with pat? -/
def startsWithChars : List Char → List Char → Bool
  | _, [] => true
  | [], _ :: _ => false
  | c :: cs, p :: ps => c = p && startsWithChars cs ps

/-- Does hay contain pat as a contiguous substring? -/
def containsSub (hay pat : List Char) : Bool :=
  match hay with
  | [] => startsWithChars [] pat
  | c :: t => startsWithChars (c :: t) pat || containsSub t pat

/-- ASCII lowercasing: the fragment of JavaScript case-insensitive matching
exercised by the fixed diagnostic messages. -/
def lowerChar (c : Char) : Char :=
  if 'A' ≤ c && c ≤ 'Z' then Char.ofNat (c.toNat + 32) else c

def lowerStr (s : List Char) : List Char := s.map lowerChar

/-- The defect classes detected by the engine. -/
inductive DiagKind
  | missingInclude
  | missingSemicolon
  | extraSemicolon
  | unmatchedBraces
  deriving DecidableEq

/-- The wire `type` string of each pushed error object. -/
def wireType : DiagKind → String
  | .missingInclude => "ReferenceError"
  | .missingSemicolon => "SyntaxError"
  | .extraSemicolon => "SyntaxWarning"
  | .unmatchedBraces => "SyntaxError"

/-- The fixed message attached to each diagnostic kind by the handlers. -/
def message : DiagKind → String
  | .missingInclude => "printf may be undeclared (missing #include <stdio.h>)"
  | .missingSemicolon => "Missing semicolon after statement"
  | .extraSemicolon => "Extra semicolon detected"
  | .unmatchedBraces => "Unmatched braces"

/-- One detected defect: its kind and its optional 1-based line number
(the `line` field of the pushed error object, present only for the
extra-semicolon check). -/
structure Diag where
  kind : DiagKind
  line : Option Nat
  deriving DecidableEq

/-- The edit payload: insert content before a line, or replace a line. -/
inductive EditOp
  | insert (content : List Char)
  | replace (original replacement : List Char)
  deriving DecidableEq

structure Edit where
  op : EditOp
  line : Nat
  deriving DecidableEq

/-- A synthesized fix: description, confidence, edit.  Confidence is the
literal of the source scaled to hundredths (0.9 becomes 90), keeping the
record kernel-computable. -/
structure Fix where
  description : String
  confidence : Nat
  edit : Edit
  deriving DecidableEq

/-- Position search of an unanchored JavaScript regex test: does any
suffix of the input admit a match attempt? -/
def anySuffix (p : List Char → Bool) : List Char → Bool
  | [] => p []
  | c :: t => p (c :: t) || anySuffix p t

/-- One match attempt of printf\s*\( at the head of s.  The \s* step is
deterministic: '(' is not whitespace, so the only viable amount of
whitespace to consume is the full leading run. -/
def printfCallHere (s : List Char) : Bool :=
  startsWithChars s ("printf".data) &&
    match (s.drop 6).dropWhile wsChar with
    | '(' :: _ => true
    | _ => false

/-- /printf\s*\(/.test(code) -/
def hasPrintf (code : List Char) : Bool := anySuffix printfCallHere code

/-- One match attempt of #\s*include\s*<stdio.h> at the head of s.  The
unescaped dot of the source regex matches any character except a line
terminator, so "<stdio" may be followed by any non-terminator character
before "h>". -/
def stdioHere (s : List Char) : Bool :=
  match s with
  | '#' :: r1 =>
    let r2 := r1.dropWhile wsChar
    startsWithChars r2 ("include".data) &&
      (let r3 := (r2.drop 7).dropWhile wsChar
       startsWithChars r3 ("<stdio".data) &&
        match r3.drop 6 with
        | c :: 'h' :: '>' :: _ => !(c = '\n' || c = '\r')
        | _ => false)
  | _ => false

/-- /#\s*include\s*<stdio.h>/.test(code) -/
def hasStdio (code : List Char) : Bool := anySuffix stdioHere code

/-- After a candidate closing parenthesis: [ \t]* then the multiline $
(end of input, or a line terminator ahead). -/
def tabSpaceThenEOL (s : List Char) : Bool :=
  match s.dropWhile (fun c => c = ' ' || c = '\t') with
  | [] => true
  | c :: _ => c = '\n' || c = '\r'

/-- Search for the closing parenthesis of [^;]*\)[ \t]*$ (multiline $):
the region scanned by [^;]* may not contain a semicolon, and a candidate
')' is accepted when only spaces and tabs follow it up to a line
terminator or the end of input. -/
def closeParenEOL : List Char → Bool
  | [] => false
  | c :: rest =>
    if c = ';' then false
    else (c = ')' && tabSpaceThenEOL rest) || closeParenEOL rest

/-- One match attempt of printf\s*\([^;]*\)[ \t]*$ at the head of s. -/
def semiPatternHere (s : List Char) : Bool :=
  startsWithChars s ("printf".data) &&
    match (s.drop 6).dropWhile wsChar with
    | '(' :: rest => closeParenEOL rest
    | _ => false

/-- code.match(/(^.*printf\s*\([^;]*\)[ \t]*$)/m) succeeds.  The leading
^.* imposes no constraint on where "printf" sits: for any occurrence of
"printf", the start of its own line (position 0 or the position after the
last preceding line terminator) is a valid ^ anchor, and the characters
between that anchor and the occurrence contain no line terminator, so .*
matches them.  Hence the multiline match exists exactly when some suffix
matches printf\s*\([^;]*\)[ \t]*$. -/
def codeSemiMatch (code : List Char) : Bool := anySuffix semiPatternHere code

/-- The exhaustive per-line ;; scan of the detector; the first element of
the list carries line number i+1. -/
def extraDiagsFrom : Nat → List (List Char) → List Diag
  | _, [] => []
  | i, l :: rest =>
    (if containsSub l (";;".data) then [⟨.extraSemicolon, some (i + 1)⟩] else [])
      ++ extraDiagsFrom (i + 1) rest

/-- The error-detection portion of the POST /compile handler: four checks,
run unconditionally in source order, appending to one list.  The handler
also guards the missing-semicolon push with !/;\s*$/.test(lineText), but
that guard is vacuously true whenever the match exists: the matched text
ends with ')' followed only by spaces and tabs, and every ';' inside it
precedes that final non-whitespace ')', so /;\s*$/ can never hold. -/
def analyze (code : List Char) : List Diag :=
  (if hasPrintf code && !hasStdio code then [⟨.missingInclude, none⟩] else [])
    ++ (if codeSemiMatch code then [⟨.missingSemicolon, none⟩] else [])
    ++ extraDiagsFrom 0 (splitLines code)
    ++ (if code.count '\x7b' = code.count '\x7d' then [] else [⟨.unmatchedBraces, none⟩])

/-- errors.some(e => regex.test(e.message)) in generateFixes, for a
lowercase literal pattern: a case-insensitive substring test against the
fixed per-kind message. -/
def msgHas (pat : String) (d : Diag) : Bool :=
  containsSub (lowerStr (message d.kind).data) pat.data

/-- The missing-include fix block of generateFixes. -/
def includeFixes (errors : List Diag) : List Fix :=
  if errors.any (msgHas "stdio") then
    [⟨"Add #include <stdio.h> at the top to declare printf", 90,
      ⟨.insert ("#include <stdio.h>\n").data, 1⟩⟩]
  else []

/-- Search for the closing parenthesis of [^;]*\)\s*$ (whole-line $): the
per-line variant used by generateFixes, where after a candidate ')' only
whitespace may remain on the line. -/
def closeParenWS : List Char → Bool
  | [] => false
  | c :: rest =>
    if c = ';' then false
    else (c = ')' && rest.all wsChar) || closeParenWS rest

/-- One match attempt of printf\s*\([^;]*\)\s*$ at the head of s. -/
def lineSemiHere (s : List Char) : Bool :=
  startsWithChars s ("printf".data) &&
    match (s.drop 6).dropWhile wsChar with
    | '(' :: rest => closeParenWS rest
    | _ => false

/-- /printf\s*\([^;]*\)\s*$/.test(line) -/
def lineSemiMatch (l : List Char) : Bool := anySuffix lineSemiHere l

/-- First-match loop of the missing-semicolon fix block: find the first
matching line, emit one Replace appending a semicolon, stop. -/
def semiFixFrom : Nat → List (List Char) → List Fix
  | _, [] => []
  | i, l :: rest =>
    if lineSemiMatch l then
      [⟨"Add missing semicolon to end of statement", 95,
        ⟨.replace l (l ++ [';']), i + 1⟩⟩]
    else semiFixFrom (i + 1) rest

/-- The missing-semicolon fix block of generateFixes. -/
def semiFixes (code : List Char) (errors : List Diag) : List Fix :=
  if errors.any (msgHas "semicolon") then semiFixFrom 0 (splitLines code) else []

/-- Backward scan from the last line: 0-based index and content of the
last line containing a closing brace. -/
def findLastBrace : List (List Char) → Option (Nat × List Char)
  | [] => none
  | l :: rest =>
    match findLastBrace rest with
    | some (j, m) => some (j + 1, m)
    | none => if containsSub l ['\x7d'] then some (0, l) else none

/-- The unmatched-braces fix block of generateFixes. -/
def braceFixes (code : List Char) (errors : List Diag) : List Fix :=
  if errors.any (msgHas "brace") then
    if code.count '\x7b' > code.count '\x7d' then
      [⟨"Add missing closing brace at end of file", 85,
        ⟨.insert ['\n', '\x7d'], (splitLines code).length + 1⟩⟩]
    else if code.count '\x7d' > code.count '\x7b' then
      match findLastBrace (splitLines code) with
      | some (i, l) => [⟨"Remove an extra closing brace", 60, ⟨.replace l [], i + 1⟩⟩]
      | none => []
    else []
  else []

/-- original.replace(/;;/, ';'): collapse the first ";;" occurrence. -/
def collapseDoubleSemi : List Char → List Char
  | [] => []
  | ';' :: ';' :: rest => ';' :: rest
  | c :: rest => c :: collapseDoubleSemi rest

/-- First-match loop of the extra-semicolon fix block. -/
def extraFixFrom : Nat → List (List Char) → List Fix
  | _, [] => []
  | i, l :: rest =>
    if containsSub l (";;".data) then
      [⟨"Remove extra semicolon", 90, ⟨.replace l (collapseDoubleSemi l), i + 1⟩⟩]
    else extraFixFrom (i + 1) rest

/-- The extra-semicolon fix block of generateFixes; its message test is
the alternation /extra semicolon|duplicate/i. -/
def extraFixes (code : List Char) (errors : List Diag) : List Fix :=
  if errors.any (fun d => msgHas "extra semicolon" d || msgHas "duplicate" d) then
    extraFixFrom 0 (splitLines code)
  else []

/-- generateFixes(code, errors): the four fix blocks push in fixed source
order onto one array. -/
def generateFixes (code : List Char) (errors : List Diag) : List Fix :=
  includeFixes errors ++ semiFixes code errors
    ++ braceFixes code errors ++ extraFixes code errors

/-- The fixes carried by the /compile response: empty on the success path,
generateFixes on the error path. -/
def compileFixes (code : List Char) : List Fix :=
  if (analyze code).isEmpty then [] else generateFixes code (analyze code)

/-- The error detection of the POST /fix handler, which textually
duplicates the four checks of /compile (same regexes, messages, order). -/
def analyzeFix (code : List Char) : List Diag :=
  (if hasPrintf code && !hasStdio code then [⟨.missingInclude, none⟩] else [])
    ++ (if codeSemiMatch code then [⟨.missingSemicolon, none⟩] else [])
    ++ extraDiagsFrom 0 (splitLines code)
    ++ (if code.count '\x7b' = code.count '\x7d' then [] else [⟨.unmatchedBraces, none⟩])

/-- The edit list of the /fix response: generateFixes over the duplicated
detection, called unconditionally. -/
def fixFixes (code : List Char) : List Fix :=
  generateFixes code (analyzeFix code)

/-- A lexical token of the /compile success response. -/
structure Token where
  ttype : String
  value : String
  line : Nat
  deriving DecidableEq

/-- The token list of the /compile response: a hard-coded constant on the
success path, empty on the error path. -/
def compileTokens (code : List Char) : List Token :=
  if (analyze code).isEmpty then
    [⟨"keyword", "int", 1⟩, ⟨"identifier", "main", 1⟩]
  else []

/-- The edit applier of the frontend (applyFix in App.tsx).  The
JavaScript index is Math.max(0, Math.min(lines.length, (edit.line||1)-1));
with a natural-number line the outer max is redundant and (line||1) sends
0 to 1.  The insert branch splices content.split(/\r?\n/) before the
index; the replace branch assigns lines[lineIndex], which appends when
lineIndex = lines.length — the take/drop form reproduces both cases.  The
result is lines.join('\n'). -/
def applyFix (code : List Char) (e : Edit) : List Char :=
  let lines := splitLines code
  let lineIndex := min lines.length ((if e.line = 0 then 1 else e.line) - 1)
  match e.op with
  | .insert content =>
    joinLines (lines.take lineIndex ++ splitLines content ++ lines.drop lineIndex)
  | .replace _ replacement =>
    joinLines (lines.take lineIndex ++ [replacement] ++ lines.drop (lineIndex + 1))

/-- Number of lines of a buffer: the length of its \r?\n split. -/
def lineCount (code : List Char) : Nat := (splitLines code).length

/-- Number of newline characters in a string. -/
def nlCount (s : List Char) : Nat := s.count '\n'

/-- The clamped 0-based index used by applyFix:
Math.max(0, Math.min(lines.length, (edit.line || 1) - 1)). -/
def clampIndex (code : List Char) (line : Nat) : Nat :=
  min (splitLines code).length ((if line = 0 then 1 else line) - 1)

/-- The content an edit writes: the inserted text, or the replacement. -/
def editContent (e : Edit) : List Char :=
  match e.op with
  | .insert c => c
  | .replace _ r => r

def isInsertEdit (e : Edit) : Bool :=
  match e.op with
  | .insert _ => true
  | .replace _ _ => false

/-- The edit synthesized for UnmatchedBraces when opens exceed closes:
Insert at line length+1 with content "\n\x7d". -/
def braceInsertEdit (code : List Char) : Edit :=
  ⟨.insert ['\n', '\x7d'], (splitLines code).length + 1⟩

/-- The Scenario B input: int main() \x7b, then an indented printf line,
then a trailing newline (so the buffer splits into three lines, the last
empty). -/
def scenBInput : List Char := ("int main() \x7b\n  printf(\"hi\");\n").data

/-- A one-line buffer whose only line is an unterminated printf call. -/
def semiCexInput : List Char := ("printf(x)").data

/-- Fix-synthesizer counterexample source: a printf line lacking its
semicolon, followed by a line with a doubled semicolon. -/
def crossKindCexCode : List Char := ("printf(x)\n;;").data

/-- A diagnostics input holding only an ExtraSemicolon diagnostic. -/
def crossKindCexErrs : List Diag := [⟨.extraSemicolon, some 2⟩]

/-- A buffer with two opening braces and no closing brace. -/
def doubleOpenBrace : List Char := ("\x7b\x7b").data

/-- A buffer with one opening brace and no closing brace. -/
def singleOpenBrace : List Char := ("\x7b").data

/-- A two-element diagnostics list, and the same list reversed. -/
def permErrsA : List Diag := [⟨.extraSemicolon, some 2⟩, ⟨.unmatchedBraces, none⟩]

def permErrsB : List Diag := [⟨.unmatchedBraces, none⟩, ⟨.extraSemicolon, some 2⟩]

/-! Structural lemmas about line splitting and joining -/

theorem consHead_ne_nil (c : Char) (ls : List (List Char)) : consHead c ls ≠ [] := by
  cases ls <;> simp [consHead]

theorem consHead_length (c : Char) (ls : List (List Char)) (h : ls ≠ []) :
    (consHead c ls).length = ls.length := by
  cases ls with
  | nil => exact absurd rfl h
  | cons l t => simp [consHead]

theorem splitLines_ne_nil (s : List Char) : splitLines s ≠ [] := by
  induction s using splitLines.induct with
  | case1 => simp [splitLines]
  | case2 rest ih => simp [splitLines]
  | case3 rest ih => simp [splitLines]
  | case4 c rest h1 h2 ih =>
    simp only [splitLines]
    exact consHead_ne_nil c (splitLines rest)

/-- Splitting at \r?\n yields one line per newline character plus one. -/
theorem splitLines_length (s : List Char) :
    (splitLines s).length = s.count '\n' + 1 := by
  induction s using splitLines.induct with
  | case1 => simp [splitLines]
  | case2 rest ih => simp [splitLines, List.count_cons, ih]
  | case3 rest ih => simp [splitLines, List.count_cons, ih]
  | case4 c rest h1 h2 ih =>
    simp only [splitLines]
    rw [consHead_length c _ (splitLines_ne_nil rest), ih, List.count_cons]
    have hne : ¬('\n' = c) := fun hc => h2 hc.symm
    simp [hne]
    exact h2

theorem mem_consHead (c : Char) (ls : List (List Char)) (l : List Char)
    (h : l ∈ consHead c ls) : (∃ l', l = c :: l' ∧ (ls = [] ∨ ∃ t, ls = l' :: t)) ∨ l ∈ ls.tail := by
  cases ls with
  | nil =>
    simp [consHead] at h
    exact Or.inl ⟨[], by simp [h]⟩
  | cons m t =>
    simp only [consHead, List.mem_cons] at h
    rcases h with h | h
    · exact Or.inl ⟨m, h, Or.inr ⟨t, rfl⟩⟩
    · exact Or.inr (by simpa using h)

/-- No line produced by splitLines contains a newline character. -/
theorem splitLines_no_nl (s : List Char) : ∀ l ∈ splitLines s, '\n' ∉ l := by
  induction s using splitLines.induct with
  | case1 => simp [splitLines]
  | case2 rest ih =>
    intro l hl
    simp only [splitLines, List.mem_cons] at hl
    rcases hl with rfl | hl
    · simp
    · exact ih l hl
  | case3 rest ih =>
    intro l hl
    simp only [splitLines, List.mem_cons] at hl
    rcases hl with rfl | hl
    · simp
    · exact ih l hl
  | case4 c rest h1 h2 ih =>
    intro l hl
    simp only [splitLines] at hl
    rcases mem_consHead c _ l hl with ⟨l', rfl, hcase⟩ | hmem
    · rcases hcase with hnil | ⟨t, hcons⟩
      · exact absurd hnil (splitLines_ne_nil rest)
      · intro hmem
        rcases List.mem_cons.mp hmem with hc | hmem'
        · exact h2 hc.symm
        · exact ih l' (by rw [hcons]; exact List.mem_cons_self _ _) hmem'
    · exact ih l (List.mem_of_mem_tail hmem)

theorem consHead_sum_count (c d : Char) (ls : List (List Char)) (h : ls ≠ []) :
    ((consHead d ls).map (fun l => l.count c)).sum
      = (if d = c then 1 else 0) + (ls.map (fun l => l.count c)).sum := by
  cases ls with
  | nil => exact absurd rfl h
  | cons l t => simp [consHead, List.count_cons]; ring

/-- For a character that is neither \n nor \r, splitting preserves the
total occurrence count. -/
theorem splitLines_sum_count (c : Char) (h1 : c ≠ '\n') (h2 : c ≠ '\r') (s : List Char) :
    ((splitLines s).map (fun l => l.count c)).sum = s.count c := by
  induction s using splitLines.induct with
  | case1 => simp [splitLines]
  | case2 rest ih =>
    simp [splitLines, List.count_cons, ih, Ne.symm h1, Ne.symm h2]
  | case3 rest ih =>
    simp [splitLines, List.count_cons, ih, Ne.symm h1]
  | case4 d rest hd1 hd2 ih =>
    simp only [splitLines]
    rw [consHead_sum_count c d _ (splitLines_ne_nil rest), ih, List.count_cons]
    rcases eq_or_ne d c with hdc | hdc <;> (simp [hdc]; try omega)

/-- Joining with \n preserves counts of characters other than \n. -/
theorem joinLines_count (c : Char) (h : c ≠ '\n') (xs : List (List Char)) :
    (joinLines xs).count c = (xs.map (fun l => l.count c)).sum := by
  induction xs using joinLines.induct with
  | case1 => simp [joinLines]
  | case2 l => simp [joinLines]
  | case3 l m ls ih =>
    simp only [joinLines]
    simp [List.count_append, List.count_cons, ih, Ne.symm h]

/-- Joining a nonempty list with \n contributes one newline per separator
in addition to the newlines of the elements. -/
theorem joinLines_count_nl (xs : List (List Char)) (h : xs ≠ []) :
    (joinLines xs).count '\n' = (xs.map (fun l => l.count '\n')).sum + (xs.length - 1) := by
  induction xs using joinLines.induct with
  | case1 => exact absurd rfl h
  | case2 l => simp [joinLines]
  | case3 l m hm ih =>
    simp only [joinLines]
    rw [List.count_append, List.count_cons, ih hm]
    have hp : 1 ≤ m.length := List.length_pos.mpr hm
    simp
    omega

/-- Line count of a join: one line per element, plus the lines opened by
newlines embedded in the elements. -/
theorem lineCount_joinLines (xs : List (List Char)) (h : xs ≠ []) :
    lineCount (joinLines xs) = (xs.map (fun l => l.count '\n')).sum + xs.length := by
  have hx : 1 ≤ xs.length := List.length_pos.mpr h
  rw [lineCount, splitLines_length, joinLines_count_nl xs h]
  omega

theorem nl_free_sum (ls : List (List Char)) (h : ∀ l ∈ ls, '\n' ∉ l) :
    (ls.map (fun l => l.count '\n')).sum = 0 := by
  apply List.sum_eq_zero
  intro x hx
  rcases List.mem_map.mp hx with ⟨l, hl, rfl⟩
  exact List.count_eq_zero.mpr (h l hl)

theorem sum_count_nl_splitLines (s : List Char) :
    ((splitLines s).map (fun l => l.count '\n')).sum = 0 :=
  nl_free_sum _ (splitLines_no_nl s)

/-! Line-count behaviour of the edit applier -/

theorem applyFix_insert_eq (code content : List Char) (line : Nat) :
    applyFix code ⟨.insert content, line⟩
      = joinLines ((splitLines code).take (clampIndex code line)
          ++ splitLines content ++ (splitLines code).drop (clampIndex code line)) := rfl

theorem applyFix_replace_eq (code orig repl : List Char) (line : Nat) :
    applyFix code ⟨.replace orig repl, line⟩
      = joinLines ((splitLines code).take (clampIndex code line)
          ++ [repl] ++ (splitLines code).drop (clampIndex code line + 1)) := rfl

/-- Inserting always adds exactly (newlines of content) + 1 lines,
whatever the requested line number. -/
theorem applyFix_insert_lineCount (code content : List Char) (line : Nat) :
    lineCount (applyFix code ⟨.insert content, line⟩)
      = lineCount code + nlCount content + 1 := by
  rw [applyFix_insert_eq]
  have hidx : clampIndex code line ≤ (splitLines code).length := min_le_left _ _
  have hne : (splitLines code).take (clampIndex code line)
      ++ splitLines content ++ (splitLines code).drop (clampIndex code line) ≠ [] := by
    simp [splitLines_ne_nil content]
  rw [lineCount_joinLines _ hne]
  have hsum : (((splitLines code).take (clampIndex code line)
      ++ splitLines content ++ (splitLines code).drop (clampIndex code line)).map
        (fun l => l.count '\n')).sum = 0 := by
    apply nl_free_sum
    intro l hl
    rcases List.mem_append.mp hl with hl | hl
    · rcases List.mem_append.mp hl with hl | hl
      · exact splitLines_no_nl code l (List.take_subset _ _ hl)
      · exact splitLines_no_nl content l hl
    · exact splitLines_no_nl code l (List.drop_subset _ _ hl)
  rw [hsum]
  simp only [List.length_append, List.length_take, List.length_drop]
  rw [splitLines_length content]
  unfold lineCount nlCount
  omega

/-- Replacing yields (newlines of replacement) extra lines when the
clamped index is in range, and one more when the index equals the line
count (the JavaScript assignment then appends a fresh element). -/
theorem applyFix_replace_lineCount (code orig repl : List Char) (line : Nat) :
    lineCount (applyFix code ⟨.replace orig repl, line⟩)
      = repl.count '\n'
          + (if (if line = 0 then 1 else line) - 1 < lineCount code
             then lineCount code else lineCount code + 1) := by
  rw [applyFix_replace_eq]
  have hidx : clampIndex code line ≤ (splitLines code).length := min_le_left _ _
  have hne : (splitLines code).take (clampIndex code line)
      ++ [repl] ++ (splitLines code).drop (clampIndex code line + 1) ≠ [] := by
    simp
  rw [lineCount_joinLines _ hne]
  have hsum : (((splitLines code).take (clampIndex code line)
      ++ [repl] ++ (splitLines code).drop (clampIndex code line + 1)).map
        (fun l => l.count '\n')).sum = repl.count '\n' := by
    simp only [List.map_append, List.sum_append]
    rw [nl_free_sum _ (fun l hl => splitLines_no_nl code l (List.take_subset _ _ hl)),
      nl_free_sum _ (fun l hl => splitLines_no_nl code l (List.drop_subset _ _ hl))]
    simp
  rw [hsum]
  simp only [List.length_append, List.length_take, List.length_drop, List.length_cons,
    List.length_nil]
  have hcl : clampIndex code line
      = min (splitLines code).length ((if line = 0 then 1 else line) - 1) := rfl
  unfold lineCount
  by_cases hlt : (if line = 0 then 1 else line) - 1 < (splitLines code).length
  · rw [if_pos hlt]
    omega
  · rw [if_neg hlt]
    omega

/-! Structure of the diagnostic list -/

theorem extraDiagsFrom_kind : ∀ (i : Nat) (ls : List (List Char)) (d : Diag),
    d ∈ extraDiagsFrom i ls → d.kind = DiagKind.extraSemicolon := by
  intro i ls
  induction ls generalizing i with
  | nil => intro d hd; simp [extraDiagsFrom] at hd
  | cons l rest ih =>
    intro d hd
    simp only [extraDiagsFrom, List.mem_append] at hd
    rcases hd with hd | hd
    · by_cases hc : containsSub l (";;".data)
      · rw [if_pos hc] at hd
        simp at hd
        rw [hd]
      · rw [if_neg hc] at hd
        simp at hd
    · exact ih (i + 1) d hd

/-- Shared shape lemma: the UnmatchedBraces diagnostic is emitted exactly
once when the brace counts differ and never otherwise. -/
theorem analyze_unmatched_count (code : List Char) :
    (analyze code).countP (fun d => d.kind == DiagKind.unmatchedBraces)
      = if code.count '\x7b' = code.count '\x7d' then 0 else 1 := by
  have hextra : (extraDiagsFrom 0 (splitLines code)).countP
      (fun d => d.kind == DiagKind.unmatchedBraces) = 0 := by
    apply List.countP_eq_zero.mpr
    intro d hd
    simp [extraDiagsFrom_kind 0 _ d hd]
  by_cases h1 : hasPrintf code && !hasStdio code <;>
    by_cases h2 : codeSemiMatch code <;>
      by_cases h3 : code.count '\x7b' = code.count '\x7d' <;>
        simp [analyze, List.countP_append, h1, h2, h3, hextra]

/-- Shared shape lemma: the MissingSemicolon diagnostics of an analyze
call are a single line-less diagnostic when the multiline printf pattern
matches, and nothing otherwise. -/
theorem analyze_semi_filter (code : List Char) :
    (analyze code).filter (fun d => d.kind == DiagKind.missingSemicolon)
      = if codeSemiMatch code then [⟨DiagKind.missingSemicolon, none⟩] else [] := by
  have hextra : (extraDiagsFrom 0 (splitLines code)).filter
      (fun d => d.kind == DiagKind.missingSemicolon) = [] := by
    apply List.filter_eq_nil_iff.mpr
    intro d hd
    simp [extraDiagsFrom_kind 0 _ d hd]
  by_cases h1 : hasPrintf code && !hasStdio code <;>
    by_cases h2 : codeSemiMatch code <;>
      by_cases h3 : code.count '\x7b' = code.count '\x7d' <;>
        simp [analyze, List.filter_append, h1, h2, h3, hextra]

/-- The first-match loop of extraDiagsFrom agrees with the declarative
description: one diagnostic per ;;-line, carrying index + 1. -/
theorem extraDiagsFrom_enumFrom : ∀ (i : Nat) (ls : List (List Char)),
    extraDiagsFrom i ls
      = ((List.enumFrom i ls).filter (fun p => containsSub p.2 (";;".data))).map
          (fun p => ⟨DiagKind.extraSemicolon, some (p.1 + 1)⟩) := by
  intro i ls
  induction ls generalizing i with
  | nil => simp [extraDiagsFrom]
  | cons l rest ih =>
    by_cases hc : containsSub l (";;".data) <;>
      simp [extraDiagsFrom, List.enumFrom_cons, hc, ih (i + 1)]

/-- any is invariant under permutation of the list. -/
theorem perm_any {α : Type} (p : α → Bool) {l l' : List α} (h : l.Perm l') :
    l.any p = l'.any p := by
  induction h with
  | nil => rfl
  | cons x h ih => simp [List.any_cons, ih]
  | swap x y l => simp only [List.any_cons]; exact Bool.or_left_comm _ _ _
  | trans h1 h2 ih1 ih2 => exact ih1.trans ih2

/-! Structure of the synthesized fix list -/

theorem generateFixes_nil (code : List Char) : generateFixes code [] = [] := by
  simp [generateFixes, includeFixes, semiFixes, braceFixes, extraFixes]

theorem includeFixes_length (errors : List Diag) : (includeFixes errors).length ≤ 1 := by
  unfold includeFixes
  by_cases h : errors.any (msgHas ("stdio")) <;> simp [h]

theorem semiFixFrom_length : ∀ (i : Nat) (ls : List (List Char)),
    (semiFixFrom i ls).length ≤ 1 := by
  intro i ls
  induction ls generalizing i with
  | nil => simp [semiFixFrom]
  | cons l rest ih =>
    by_cases hc : lineSemiMatch l <;> simp [semiFixFrom, hc, ih (i + 1)]

theorem semiFixes_length (code : List Char) (errors : List Diag) :
    (semiFixes code errors).length ≤ 1 := by
  unfold semiFixes
  by_cases h : errors.any (msgHas ("semicolon")) <;> simp [h, semiFixFrom_length]

theorem braceFixes_length (code : List Char) (errors : List Diag) :
    (braceFixes code errors).length ≤ 1 := by
  unfold braceFixes
  by_cases h : errors.any (msgHas ("brace")) <;> simp [h]
  by_cases h1 : code.count '\x7b' > code.count '\x7d' <;> simp [h1]
  by_cases h2 : code.count '\x7d' > code.count '\x7b' <;> simp [h2]
  cases hf : findLastBrace (splitLines code) with
  | none => simp
  | some v => cases v with | mk i l => simp

theorem extraFixFrom_length : ∀ (i : Nat) (ls : List (List Char)),
    (extraFixFrom i ls).length ≤ 1 := by
  intro i ls
  induction ls generalizing i with
  | nil => simp [extraFixFrom]
  | cons l rest ih =>
    by_cases hc : containsSub l (";;".data) <;> simp [extraFixFrom, hc, ih (i + 1)]

theorem extraFixes_length (code : List Char) (errors : List Diag) :
    (extraFixes code errors).length ≤ 1 := by
  unfold extraFixes
  by_cases h : errors.any (fun d => msgHas ("extra semicolon") d || msgHas ("duplicate") d) <;>
    simp [h, extraFixFrom_length]

/-- generateFixes consults its diagnostics input only through
order-insensitive any-tests, so it is invariant under permutation. -/
theorem generateFixes_perm (code : List Char) {errs errs' : List Diag}
    (h : errs.Perm errs') : generateFixes code errs = generateFixes code errs' := by
  unfold generateFixes includeFixes semiFixes braceFixes extraFixes
  rw [perm_any (msgHas ("stdio")) h, perm_any (msgHas ("semicolon")) h,
    perm_any (msgHas ("brace")) h,
    perm_any (fun d => msgHas ("extra semicolon") d || msgHas ("duplicate") d) h]

/-! Claim theorems -/

/-- C6: for every source buffer, analyze emits the UnmatchedBraces
diagnostic exactly once when the counts of opening and closing braces
differ, and never when they agree. -/
theorem c6_unmatched_braces_iff (code : List Char) :
    (analyze code).countP (fun d => d.kind == DiagKind.unmatchedBraces)
      = if code.count '\x7b' = code.count '\x7d' then 0 else 1 :=
  analyze_unmatched_count code

/-- C8: for every source buffer, the ExtraSemicolon diagnostics of an
analyze call are exactly one diagnostic per line containing ";;", in line
order, each carrying the 1-based number of that line — the check is exhaustive
over all lines. -/
theorem c8_extra_semicolon_exhaustive (code : List Char) :
    (analyze code).filter (fun d => d.kind == DiagKind.extraSemicolon)
      = ((splitLines code).enum.filter (fun p => containsSub p.2 (";;".data))).map
          (fun p => ⟨DiagKind.extraSemicolon, some (p.1 + 1)⟩) := by
  have hex : (extraDiagsFrom 0 (splitLines code)).filter
      (fun d => d.kind == DiagKind.extraSemicolon) = extraDiagsFrom 0 (splitLines code) := by
    apply List.filter_eq_self.mpr
    intro d hd
    simp [extraDiagsFrom_kind 0 _ d hd]
  have hfilter : (analyze code).filter (fun d => d.kind == DiagKind.extraSemicolon)
      = extraDiagsFrom 0 (splitLines code) := by
    by_cases h1 : hasPrintf code && !hasStdio code <;>
      by_cases h2 : codeSemiMatch code <;>
        by_cases h3 : code.count '\x7b' = code.count '\x7d' <;>
          simp [analyze, List.filter_append, h1, h2, h3, hex]
  rw [hfilter, extraDiagsFrom_enumFrom]
  rfl

/-- C3 counterexample: on the one-line buffer "printf(x)" the first (and
only) offending line is line 1, yet the emitted MissingSemicolon
diagnostic carries no line number at all, refuting the claim that the
diagnostic carries the 1-based number of the offending line. -/
theorem c3_counterexample :
    ¬ (∀ d ∈ analyze semiCexInput,
        d.kind = DiagKind.missingSemicolon → d.line = some 1) := by decide

/-- C3 amended: every analyze call emits at most one MissingSemicolon
diagnostic — exactly one, with no line number, when the multiline
printf-without-terminator pattern matches somewhere in the buffer, and
none otherwise. -/
theorem c3_amended_at_most_one_no_line (code : List Char) :
    (analyze code).filter (fun d => d.kind == DiagKind.missingSemicolon)
      = if codeSemiMatch code then [⟨DiagKind.missingSemicolon, none⟩] else [] :=
  analyze_semi_filter code

/-- C9: the edit list returned by the /fix handler equals the fix list
computed by the /compile handler on the same code: the duplicated
detection logic is extensionally the same, and generateFixes of an empty
diagnostic list is empty. -/
theorem c9_fix_endpoint_agrees (code : List Char) : fixFixes code = compileFixes code := by
  have hdup : analyzeFix code = analyze code := rfl
  unfold fixFixes compileFixes
  rw [hdup]
  cases h : (analyze code).isEmpty with
  | true =>
    have hnil : analyze code = [] := by simpa using h
    simp [h, hnil, generateFixes_nil]
  | false => simp [h]

/-- C10: whenever analysis succeeds (zero diagnostics), the /compile
response carries the hard-coded token list
[keyword int at line 1, identifier main at line 1], independent of the
source text. -/
theorem c10_constant_tokens (code : List Char) (h : analyze code = []) :
    compileTokens code = [⟨"keyword", "int", 1⟩, ⟨"identifier", "main", 1⟩] := by
  simp [compileTokens, h]

/-- C10 witness: the empty buffer analyzes clean and receives the
constant token list. -/
theorem c10_witness :
    analyze [] = [] ∧
    compileTokens [] = [⟨"keyword", "int", 1⟩, ⟨"identifier", "main", 1⟩] :=
  ⟨by decide, c10_constant_tokens [] (by decide)⟩

/-- C2 counterexample: on the Scenario B input the analyzer does not
return exactly one diagnostic — the buffer uses printf without including
stdio.h, so MissingInclude is emitted alongside UnmatchedBraces. -/
theorem c2_counterexample : (analyze scenBInput).length ≠ 1 := by decide

/-- C2 amended: on the Scenario B input, analyze returns exactly the two
diagnostics [MissingInclude, UnmatchedBraces], and the /compile fix list
holds two edits: an Insert at line 1 with the include directive, and an
Insert at line 4 (one past the three lines of the split buffer, whose
last line is empty) with content "\n\x7d". -/
theorem c2_amended_two_diagnostics :
    analyze scenBInput = [⟨DiagKind.missingInclude, none⟩, ⟨DiagKind.unmatchedBraces, none⟩] ∧
    compileFixes scenBInput
      = [⟨"Add #include <stdio.h> at the top to declare printf", 90,
          ⟨.insert (("#include <stdio.h>\n").data), 1⟩⟩,
         ⟨"Add missing closing brace at end of file", 85,
          ⟨.insert ['\n', '\x7d'], 4⟩⟩] := by
  constructor
  · decide
  · decide

/-- C7 counterexample: with an ExtraSemicolon diagnostic as the only
input kind, generateFixes emits two edits — the missing-semicolon block
fires because the message "Extra semicolon detected" also matches
/semicolon/i — so the edit count exceeds the number of distinct input
kinds. -/
theorem c7_counterexample :
    ¬ ((generateFixes crossKindCexCode crossKindCexErrs).length
        ≤ ((crossKindCexErrs.map Diag.kind).dedup).length) := by decide

/-- C7 amended: generateFixes emits its edits in the fixed block order
MissingInclude, MissingSemicolon, UnmatchedBraces, ExtraSemicolon with at
most one edit per block, and is invariant under permutation of the
diagnostics input; the per-distinct-kind bound fails only because the
ExtraSemicolon message also triggers the MissingSemicolon block. -/
theorem c7_amended_block_order (code : List Char) (errs errs' : List Diag)
    (h : errs.Perm errs') :
    generateFixes code errs = generateFixes code errs' ∧
    generateFixes code errs
      = includeFixes errs ++ semiFixes code errs
          ++ braceFixes code errs ++ extraFixes code errs ∧
    (includeFixes errs).length ≤ 1 ∧ (semiFixes code errs).length ≤ 1 ∧
    (braceFixes code errs).length ≤ 1 ∧ (extraFixes code errs).length ≤ 1 :=
  ⟨generateFixes_perm code h, rfl, includeFixes_length errs, semiFixes_length code errs,
    braceFixes_length code errs, extraFixes_length code errs⟩

/-- C7 witness: the amended statement at a concrete source and a concrete
two-element diagnostics list together with its reversal. -/
theorem c7_witness :
    generateFixes crossKindCexCode permErrsA = generateFixes crossKindCexCode permErrsB ∧
    generateFixes crossKindCexCode permErrsA
      = includeFixes permErrsA ++ semiFixes crossKindCexCode permErrsA
          ++ braceFixes crossKindCexCode permErrsA ++ extraFixes crossKindCexCode permErrsA ∧
    (includeFixes permErrsA).length ≤ 1 ∧
    (semiFixes crossKindCexCode permErrsA).length ≤ 1 ∧
    (braceFixes crossKindCexCode permErrsA).length ≤ 1 ∧
    (extraFixes crossKindCexCode permErrsA).length ≤ 1 :=
  c7_amended_block_order crossKindCexCode permErrsA permErrsB (by decide)

/-- Applying the synthesized closing-brace insertion appends an empty
line and a "\x7d" line after the last line of the buffer. -/
theorem applyFix_braceInsert (code : List Char) :
    applyFix code (braceInsertEdit code)
      = joinLines (splitLines code ++ [[], ['\x7d']]) := by
  have hcl : clampIndex code ((splitLines code).length + 1) = (splitLines code).length := by
    unfold clampIndex
    simp
  rw [show braceInsertEdit code
      = ⟨.insert ['\n', '\x7d'], (splitLines code).length + 1⟩ from rfl]
  rw [applyFix_insert_eq, hcl, List.take_length, List.drop_length, List.append_nil]
  rfl

/-- The synthesized closing-brace insertion preserves the opening-brace
count and raises the closing-brace count by exactly one. -/
theorem applyFix_braceInsert_counts (code : List Char) :
    (applyFix code (braceInsertEdit code)).count '\x7b' = code.count '\x7b' ∧
    (applyFix code (braceInsertEdit code)).count '\x7d' = code.count '\x7d' + 1 := by
  rw [applyFix_braceInsert]
  constructor
  · rw [joinLines_count _ (by decide), List.map_append, List.sum_append,
      splitLines_sum_count _ (by decide) (by decide)]
    rw [show (([[], ['\x7d']] : List (List Char)).map (fun l => l.count '\x7b')).sum = 0
      from by decide]
    omega
  · rw [joinLines_count _ (by decide), List.map_append, List.sum_append,
      splitLines_sum_count _ (by decide) (by decide)]
    rw [show (([[], ['\x7d']] : List (List Char)).map (fun l => l.count '\x7d')).sum = 1
      from by decide]

/-- C1 counterexample: the buffer "\x7b\x7b" has more opening than
closing braces, yet after applying the synthesized UnmatchedBraces edit
the analyzer still emits UnmatchedBraces (two opens against one close),
refuting the claim for every opens-exceeds-closes buffer. -/
theorem c1_counterexample :
    doubleOpenBrace.count '\x7b' > doubleOpenBrace.count '\x7d' ∧
    (analyze (applyFix doubleOpenBrace (braceInsertEdit doubleOpenBrace))).countP
      (fun d => d.kind == DiagKind.unmatchedBraces) = 1 := by decide

/-- C1 amended: when the opening-brace count exceeds the closing-brace
count by exactly one, the brace fix block synthesizes the Insert at line
length+1 with content "\n\x7d", and applying that edit and re-running
analyze never emits UnmatchedBraces again. -/
theorem c1_amended_idempotent_on_single_excess (code : List Char)
    (h : code.count '\x7b' = code.count '\x7d' + 1) :
    braceFixes code [⟨DiagKind.unmatchedBraces, none⟩]
      = [⟨"Add missing closing brace at end of file", 85, braceInsertEdit code⟩] ∧
    (analyze (applyFix code (braceInsertEdit code))).countP
      (fun d => d.kind == DiagKind.unmatchedBraces) = 0 := by
  constructor
  · have hany : (([⟨DiagKind.unmatchedBraces, none⟩] : List Diag).any (msgHas ("brace")))
        = true := by decide
    have hgt : code.count '\x7b' > code.count '\x7d' := by omega
    unfold braceFixes
    simp [hany, hgt, braceInsertEdit]
  · rcases applyFix_braceInsert_counts code with ⟨h1, h2⟩
    rw [analyze_unmatched_count, h1, h2, h, if_pos rfl]

/-- C1 witness: the amended statement at the one-brace buffer "\x7b". -/
theorem c1_witness :
    braceFixes singleOpenBrace [⟨DiagKind.unmatchedBraces, none⟩]
      = [⟨"Add missing closing brace at end of file", 85, braceInsertEdit singleOpenBrace⟩] ∧
    (analyze (applyFix singleOpenBrace (braceInsertEdit singleOpenBrace))).countP
      (fun d => d.kind == DiagKind.unmatchedBraces) = 0 :=
  c1_amended_idempotent_on_single_excess singleOpenBrace (by decide)

/-- C4 counterexample: inserting the newline-free content "x" into the
one-line buffer "a" changes the line count by one, exceeding the claimed
bound of zero (the newline count of the content). -/
theorem c4_counterexample :
    ¬ (lineCount (applyFix (("a").data) ⟨.insert (("x").data), 1⟩)
        ≤ lineCount (("a").data) + nlCount (("x").data)) := by decide

/-- C4 amended: applying any edit changes the line count by at most the
newline count of the written content plus one; an Insert — at any line
number, including 0 and numbers beyond length+1 — always changes it by
exactly that amount and never fails (the applier is total). -/
theorem c4_amended_line_count_bound (code : List Char) (e : Edit) :
    lineCount (applyFix code e) ≤ lineCount code + nlCount (editContent e) + 1 ∧
    (isInsertEdit e = true →
      lineCount (applyFix code e) = lineCount code + nlCount (editContent e) + 1) := by
  cases e with
  | mk op line =>
    cases op with
    | insert content =>
      have hx : lineCount (applyFix code ⟨.insert content, line⟩)
          = lineCount code + nlCount content + 1 :=
        applyFix_insert_lineCount code content line
      exact ⟨le_of_eq hx, fun _ => hx⟩
    | replace orig repl =>
      have hx := applyFix_replace_lineCount code orig repl line
      constructor
      · rw [hx]
        show repl.count '\n' + _ ≤ lineCount code + repl.count '\n' + 1
        by_cases hc : (if line = 0 then 1 else line) - 1 < lineCount code
        · rw [if_pos hc]; omega
        · rw [if_neg hc]; omega
      · intro hins
        exact absurd hins (by simp [isInsertEdit])

/-- C4 witness: the amended statement at the buffer "a" with an Insert of
"x" at line 1. -/
theorem c4_witness :
    lineCount (applyFix (("a").data) ⟨.insert (("x").data), 1⟩)
      = lineCount (("a").data) + nlCount (editContent ⟨.insert (("x").data), 1⟩) + 1 :=
  (c4_amended_line_count_bound (("a").data) ⟨.insert (("x").data), 1⟩).2 (by decide)

/-- C5 counterexample: replacing line 2 of the one-line buffer "a"
changes the line count — the applier clamps the index into [0, length]
rather than [0, length-1], so the assignment appends a new line. -/
theorem c5_counterexample :
    lineCount (applyFix (("a").data) ⟨.replace (("a").data) (("b").data), 2⟩)
      ≠ lineCount (("a").data) := by decide

/-- C5 amended: for every buffer and Replace edit with newline-free
replacement, the applier clamps the index into [0, length]; when the
clamped index is below the line count the line is overwritten in place
and the count is unchanged, and otherwise (line number beyond the buffer)
the replacement is appended as a new line and the count grows by one. -/
theorem c5_amended_replace_clamp (code : List Char) (line : Nat) (orig repl : List Char)
    (h : repl.count '\n' = 0) :
    lineCount (applyFix code ⟨.replace orig repl, line⟩)
      = if (if line = 0 then 1 else line) - 1 < lineCount code
        then lineCount code else lineCount code + 1 := by
  rw [applyFix_replace_lineCount, h, Nat.zero_add]

/-- C5 witness: the amended statement at the buffer "a" with a Replace at
line 2. -/
theorem c5_witness :
    lineCount (applyFix (("a").data) ⟨.replace (("a").data) (("b").data), 2⟩)
      = if (if (2 : Nat) = 0 then 1 else 2) - 1 < lineCount (("a").data)
        then lineCount (("a").data) else lineCount (("a").data) + 1 :=
  c5_amended_replace_clamp (("a").data) 2 (("a").data) (("b").data) (by decide)

end AERC
